import Mathlib

/-!
Verification of the note-taking CLI (`src/notes.py`).

This file gives a shallow embedding, in Lean 4, of the data model and the
operations of `notes.py`, and settles the frozen claims about them.

Modelling conventions:
* Python strings are modelled as `String` or `List Char`; the ASCII-range
  behaviour of `str.lower` coincides with Lean's `Char.toLower`, and
  Python's whitespace `strip` is modelled over the ASCII whitespace
  characters recognised by `Char.isWhitespace`.
* A persisted JSON file is modelled by `FileState α`: it is missing,
  present but malformed, or present and parseable as an `α`.
* Python `dict`s are modelled as insertion-ordered association lists.
  A JSON value that is `null` and an absent key are both modelled as
  `none`; `d.get(k, default)` becomes `Option.getD`.
* The two external HTTP collaborators are oracles: the enrichment call is
  an `Except Unit` input, and the flashcard app is a per-term success
  predicate `ok : String → Bool` deciding whether the `add_note` call for
  that term succeeds (deck creation is modelled as always succeeding; no
  claim depends on which call inside the per-note `try` block fails).
  External calls made by `sync` are recorded as an `AnkiCall` list.
* An uncaught Python exception is a distinguished `fatal…` outcome
  constructor of the command's result type.
-/

namespace AnkiNotes

/-! ### Python string primitives

`notes.py` slices the model reply with `str.split`, `str.strip` and the
`in` operator (lines 265-268), and sanitizes course names with
`str.lower` / `str.replace` (lines 72-74).  These primitives are embedded
over `List Char`. -/

/-- Python `sep in s` (substring occurrence test). -/
def occursIn (sep : List Char) : List Char → Bool
  | [] => sep.isEmpty
  | c :: rest => sep.isPrefixOf (c :: rest) || occursIn sep rest

/-- The characters of `s` strictly before the first occurrence of `sep`
(all of `s` when `sep` does not occur).  This is `s.split(sep)[0]`. -/
def takeUntil (sep : List Char) : List Char → List Char
  | [] => []
  | c :: rest => if sep.isPrefixOf (c :: rest) then [] else c :: takeUntil sep rest

/-- The characters of `s` strictly after the first occurrence of `sep`
(empty when `sep` does not occur). -/
def afterFirst (sep : List Char) : List Char → List Char
  | [] => []
  | c :: rest => if sep.isPrefixOf (c :: rest) then (c :: rest).drop sep.length else afterFirst sep rest

/-- Fuel-indexed worker for Python `str.split`: splits at the
non-overlapping, left-to-right occurrences of `sep`.  Each recursive call
consumes at least one character of the input, so fuel `s.length` is
always sufficient (see `pySplitFuel_eq`). -/
def pySplitFuel (sep : List Char) : Nat → List Char → List (List Char)
  | _, [] => [[]]
  | 0, s => [s]
  | fuel + 1, c :: rest =>
    if sep.isPrefixOf (c :: rest) && !sep.isEmpty then
      [] :: pySplitFuel sep fuel ((c :: rest).drop sep.length)
    else
      match pySplitFuel sep fuel rest with
      | [] => [[c]]
      | seg :: segs => (c :: seg) :: segs

/-- Python `s.split(sep)` for a non-empty separator. -/
def pySplit (sep s : List Char) : List (List Char) :=
  pySplitFuel sep s.length s

/-- Python `s.strip()`: drop leading and trailing whitespace. -/
def stripChars (s : List Char) : List Char :=
  ((s.dropWhile Char.isWhitespace).reverse.dropWhile Char.isWhitespace).reverse

/-- The tagged fence marker looked for at line 265 of `notes.py`. -/
def fenceJson : List Char := "```json".toList

/-- The generic fence marker looked for at lines 266-268 of `notes.py`. -/
def fence : List Char := "```".toList

/-- Lines 263-268 of `cmd_new`: extract the JSON payload out of the model
reply.  `s.split(x)[1]` is only evaluated under the guard `x in s`, where
the list returned by `split` has at least two elements, so the index is
in bounds. -/
def extract_payload (t : List Char) : List Char :=
  if occursIn fenceJson t then
    stripChars ((pySplit fence ((pySplit fenceJson t).getD 1 [])).getD 0 [])
  else if occursIn fence t then
    stripChars ((pySplit fence ((pySplit fence t).getD 1 [])).getD 0 [])
  else t

/-- Lines 72-74: `name.lower().replace(" ", "_").replace("/", "_")`.
`Char.toLower` is exactly the ASCII-range behaviour of `str.lower`, and a
single-character `str.replace` is a character map. -/
def sanitize_filename (s : List Char) : List Char :=
  ((s.map Char.toLower).map (fun c => if c = ' ' then '_' else c)).map
    (fun c => if c = '/' then '_' else c)

/-! ### Data model

The persisted JSON documents of `notes.py`: the global config (lines
41-55), a per-course config (lines 57-70, created at lines 155-174), and
a per-course note collection keyed by term (lines 216-224, 283-289). -/

/-- A persisted JSON file: absent, present but unparsable, or parsed. -/
inductive FileState (α : Type) where
  | missing
  | malformed
  | valid (a : α)

/-- The global config file `.notes_config.json`. -/
structure GlobalConfig where
  current_course : Option String
deriving DecidableEq

/-- The `anki` block of a course config (lines 161-165). -/
structure AnkiSettings where
  deck_name : String
  model_name : String
  use_sub_decks : Bool
deriving DecidableEq

/-- The `fields` block of a course config (lines 166-173): logical field
name to external field name.  `translation`, `example_translation` and
`pronunciation` are guarded by truthiness checks in `cmd_sync` and are
nullable, hence `Option`; the Python key `example` is spelled `example_`
because `example` is a Lean keyword. -/
structure FieldNames where
  term : String
  translation : Option String
  example_ : String
  example_translation : Option String
  notes : String
  pronunciation : Option String
deriving DecidableEq

/-- A course config document (lines 155-174). -/
structure CourseConfig where
  course_name : String
  created : String
  is_language : Bool
  current_level : Option String
  ai_prompt : String
  anki : AnkiSettings
  fields : FieldNames
deriving DecidableEq

/-- One note of a course's collection.  All keys a note may carry in
`notes.py`; the Python key `example` is spelled `example_`.  `synced` is
an `Option` because a note read back from disk may lack the key: the
code always reads it as `note.get('synced', False)` (line 325). -/
structure Note where
  term : Option String
  translation : Option String
  explanation : Option String
  example_ : Option String
  example_translation : Option String
  pronunciation : Option String
  notes : Option String
  context : Option String
  grammar : Option String
  added : Option String
  level : Option String
  synced : Option Bool
deriving DecidableEq

/-- A note collection: an insertion-ordered Python dict, term to note. -/
abbrev NotesData := List (String × Note)

/-- Python truthiness of an optional string (`None` and `""` are falsy). -/
def truthyStr (o : Option String) : Bool :=
  match o with
  | none => false
  | some s => !s.isEmpty

/-- `note.get('synced', False)` (line 325). -/
def getSynced (n : Note) : Bool := n.synced.getD false

/-- Python `d[k]` lookup on an association-list dict (first match). -/
def assocLookup (m : NotesData) (k : String) : Option Note :=
  match m with
  | [] => none
  | (k', v) :: rest => if k' = k then some v else assocLookup rest k

/-- Python `d[k] = v` on a note dict: replace in place when the key
exists, otherwise append (Python dicts keep insertion order). -/
def setKey (m : NotesData) (k : String) (v : Note) : NotesData :=
  match m with
  | [] => [(k, v)]
  | (k', v') :: rest => if k' = k then (k, v) :: rest else (k', v') :: setKey rest k v

/-- Python `d[k] = v` on a string-to-string dict (the Anki fields). -/
def dictInsert (m : List (String × String)) (k v : String) : List (String × String) :=
  match m with
  | [] => [(k, v)]
  | (k', v') :: rest => if k' = k then (k, v) :: rest else (k', v') :: dictInsert rest k v

/-! ### Config Store (lines 41-70) -/

/-- `load_global_config` (lines 41-50): default on a missing file and on
malformed JSON. -/
def load_global_config : FileState GlobalConfig → GlobalConfig
  | .missing => { current_course := none }
  | .malformed => { current_course := none }
  | .valid c => c

/-- `load_course_config` (lines 57-64): `None` when the file is missing;
malformed JSON raises `json.JSONDecodeError`, which no caller catches. -/
def load_course_config : FileState CourseConfig → Except Unit (Option CourseConfig)
  | .missing => .ok none
  | .malformed => .error ()
  | .valid c => .ok (some c)

/-- The notes-collection load of `cmd_new` (lines 216-224): empty dict
when the file is missing and when the JSON is malformed. -/
def loadNotesTolerant : FileState NotesData → NotesData
  | .missing => []
  | .malformed => []
  | .valid n => n

/-! ### `cmd_level` (lines 188-202) -/

/-- Result of the level command.  `fatalNoCourseConfig` is the uncaught
`TypeError` raised at line 198 when `load_course_config` returned `None`
and the code subscripts it; `fatalCourseParse` is the uncaught
`json.JSONDecodeError` from line 64.  Only `saved` writes a file. -/
inductive LevelOutcome where
  | errNoCourse
  | fatalNoCourseConfig
  | fatalCourseParse
  | saved (cfg : CourseConfig)
deriving DecidableEq

/-- `cmd_level` (lines 188-202): error when no course is selected
(`if not current_course:` — Python truthiness), otherwise overwrite
`current_level` in the course config and save it. -/
def cmd_level (gcF : FileState GlobalConfig) (ccfgF : FileState CourseConfig)
    (lvl : String) : LevelOutcome :=
  let gc := load_global_config gcF
  if !truthyStr gc.current_course then .errNoCourse
  else
    match load_course_config ccfgF with
    | .error _ => .fatalCourseParse
    | .ok none => .fatalNoCourseConfig
    | .ok (some c) => .saved { c with current_level := some lvl }

/-- The course-config write performed by a `cmd_level` run, if any. -/
def levelWrite : LevelOutcome → Option CourseConfig
  | .saved c => some c
  | _ => none

/-! ### `cmd_new` (lines 204-302) -/

/-- Result of the note-creation command.  `fatalNoCourseConfig` is the
uncaught `AttributeError` at line 227 (`course_config.get` on `None`);
`fatalCourseParse` the uncaught parse error from line 64; `errEnrichment`
the caught-and-reported exception of the `try` block (HTTP failure or a
JSON parse failure of the model reply), after which nothing is saved.
`saved` carries the rewritten collection, the storage key and the stored
note (lines 283-289). -/
inductive NewOutcome where
  | errNoCourse
  | fatalCourseParse
  | fatalNoCourseConfig
  | errNoApiKey
  | errEnrichment
  | saved (notes : NotesData) (key : String) (note : Note)
deriving DecidableEq

/-- Lines 272-281: the note as stored, from the parsed model reply `ai`:
set `added`, `level` (the course's `current_level`, line 227) and
`synced = False`, then add `context`/`grammar` when the arguments are
truthy (empty-string arguments are falsy and hence dropped).  When an
argument is not added, whatever the model reply carried under that key
remains. -/
def newNoteOf (cfg : CourseConfig) (ai : Note) (now : String)
    (ctx gram : Option String) : Note :=
  { ai with
    added := some now
    level := cfg.current_level
    synced := some false
    context := if truthyStr ctx then ctx else ai.context
    grammar := if truthyStr gram then gram else ai.grammar }

/-- `cmd_new` (lines 204-302).  `apiKey` is whether `OPENAI_API_KEY` is
set; `aiReply` is the outcome of the enrichment call: `.error` when the
HTTP request fails or the extracted payload is not valid JSON, `.ok ai`
the parsed reply.  `now` is the `datetime.now().isoformat()` timestamp.
The storage key is `note_data.get('term', args.phrase)` (line 284). -/
def cmd_new (gcF : FileState GlobalConfig) (ccfgF : FileState CourseConfig)
    (notesF : FileState NotesData) (apiKey : Bool) (phrase : String)
    (ctx gram : Option String) (aiReply : Except Unit Note) (now : String) :
    NewOutcome :=
  let gc := load_global_config gcF
  if !truthyStr gc.current_course then .errNoCourse
  else
    match load_course_config ccfgF with
    | .error _ => .fatalCourseParse
    | .ok none => .fatalNoCourseConfig
    | .ok (some cfg) =>
      let notes := loadNotesTolerant notesF
      if !apiKey then .errNoApiKey
      else
        match aiReply with
        | .error _ => .errEnrichment
        | .ok ai =>
          let nt := newNoteOf cfg ai now ctx gram
          let key := ai.term.getD phrase
          .saved (setKey notes key nt) key nt

/-- The note collection written by a `cmd_new` run, if any. -/
def newSavedNotes : NewOutcome → Option NotesData
  | .saved ns _ _ => some ns
  | _ => none

/-! ### `cmd_sync` (lines 304-399) -/

/-- An outbound call to the flashcard app's automation API. -/
inductive AnkiCall where
  | createDeck (name : String)
  | addNote (deck : String) (model : String) (fields : List (String × String))
      (tags : List String)
deriving DecidableEq

/-- Lines 350-354: the target deck of one note — a sub-deck
`deck::level` when sub-decks are enabled and the note's level is truthy,
else the course deck. -/
def targetDeck (cfg : CourseConfig) (note : Note) : String :=
  if cfg.anki.use_sub_decks && truthyStr note.level then
    cfg.anki.deck_name ++ "::" ++ note.level.getD ""
  else cfg.anki.deck_name

/-- Lines 358-376: build the external field mapping of one note.  The
translation field falls back from the note's `translation` key to its
`explanation` key by key presence (line 367); nullable configured field
names are skipped when falsy; `pronunciation` additionally requires a
truthy note value. -/
def buildFields (cfg : CourseConfig) (term : String) (note : Note) :
    List (String × String) :=
  let f0 := dictInsert (dictInsert (dictInsert []
    cfg.fields.term (note.term.getD term))
    cfg.fields.example_ (note.example_.getD ""))
    cfg.fields.notes (note.notes.getD "")
  let f1 := if truthyStr cfg.fields.translation then
      dictInsert f0 (cfg.fields.translation.getD "")
        (if note.translation.isSome then note.translation.getD ""
         else note.explanation.getD "")
    else f0
  let f2 := if truthyStr cfg.fields.example_translation then
      dictInsert f1 (cfg.fields.example_translation.getD "")
        (note.example_translation.getD "")
    else f1
  if truthyStr cfg.fields.pronunciation && truthyStr note.pronunciation then
    dictInsert f2 (cfg.fields.pronunciation.getD "") (note.pronunciation.getD "")
  else f2

/-- The per-note loop of `cmd_sync` (lines 347-392) over the unsynced
entries, in dict order: for each note, a `create_deck` call for its
target deck and an `add_note` attempt; `ok term` tells whether the
`add_note` call succeeded.  Returns the calls made and, per note, the
`(term, success)` report printed at lines 388 and 392. -/
def syncLoop (cfg : CourseConfig) (tag : String) (ok : String → Bool) :
    List (String × Note) → List AnkiCall × List (String × Bool)
  | [] => ([], [])
  | (term, note) :: rest =>
    (.createDeck (targetDeck cfg note) ::
       .addNote (targetDeck cfg note) cfg.anki.model_name (buildFields cfg term note) [tag] ::
         (syncLoop cfg tag ok rest).1,
     (term, ok term) :: (syncLoop cfg tag ok rest).2)

/-- Line 387 accumulated over the batch: flip `synced` to `True` on
exactly the unsynced entries whose push succeeded; the file is written
once, after the loop (lines 394-396). -/
def markSyncedIf (ok : String → Bool) (notes : NotesData) : NotesData :=
  notes.map fun kv =>
    if !getSynced kv.2 && ok kv.1 then (kv.1, { kv.2 with synced := some true }) else kv

/-- Line 325: the unsynced entries, in dict order. -/
def unsyncedOf (notes : NotesData) : NotesData :=
  notes.filter fun kv => !getSynced kv.2

/-- The `synced_count` of the summary line 399. -/
def succCount (ok : String → Bool) (u : NotesData) : Nat :=
  (u.filter fun kv => ok kv.1).length

/-- Result of the sync command.  `fatalNotesParse` is the uncaught
`json.JSONDecodeError` at line 322 (the notes load of `cmd_sync` has no
tolerance branch, unlike `cmd_new`); `fatalNoCourseConfig` the uncaught
`TypeError` at line 342 when the course config file is missing;
`allSynced` the early return of line 327-329, before any external call;
`ran` carries the calls made, the per-note reports, the collection as
rewritten at lines 394-396, and the `succeeded/total` summary of line
399. -/
inductive SyncOutcome where
  | errNoCourse
  | noNotesFile
  | fatalNotesParse
  | allSynced
  | errNoAnkiModule
  | fatalNoCourseConfig
  | fatalCourseParse
  | ran (events : List AnkiCall) (reports : List (String × Bool))
      (saved : NotesData) (syncedCount : Nat) (total : Nat)
deriving DecidableEq

/-- `cmd_sync` (lines 304-399), following the source's order of checks:
no-course error, missing notes file, notes parse, empty unsynced set,
AnkiConnect import, course-config load, then the top-level deck creation
(line 343) and the per-note loop. -/
def cmd_sync (gcF : FileState GlobalConfig) (ccfgF : FileState CourseConfig)
    (notesF : FileState NotesData) (ankiAvail : Bool) (ok : String → Bool) :
    SyncOutcome :=
  let gc := load_global_config gcF
  if !truthyStr gc.current_course then .errNoCourse
  else
    match notesF with
    | .missing => .noNotesFile
    | .malformed => .fatalNotesParse
    | .valid notes =>
      let u := unsyncedOf notes
      if u.isEmpty then .allSynced
      else if !ankiAvail then .errNoAnkiModule
      else
        match load_course_config ccfgF with
        | .error _ => .fatalCourseParse
        | .ok none => .fatalNoCourseConfig
        | .ok (some cfg) =>
          let tag := String.mk (sanitize_filename (gc.current_course.getD "").toList)
          .ran (.createDeck cfg.anki.deck_name :: (syncLoop cfg tag ok u).1)
            (syncLoop cfg tag ok u).2
            (markSyncedIf ok notes) (succCount ok u) u.length

/-- The external calls made by a sync run (none on every early exit). -/
def eventsOf : SyncOutcome → List AnkiCall
  | .ran evs _ _ _ _ => evs
  | _ => []

/-- The per-note reports of a sync run. -/
def reportsOf : SyncOutcome → List (String × Bool)
  | .ran _ r _ _ _ => r
  | _ => []

/-- The note collection written back by a sync run, if any. -/
def syncSaved : SyncOutcome → Option NotesData
  | .ran _ _ s _ _ => some s
  | _ => none

/-- The `succeeded/total` summary of a sync run, if it reached the loop. -/
def summaryOf : SyncOutcome → Option (Nat × Nat)
  | .ran _ _ _ c t => some (c, t)
  | _ => none

/-! ### `cmd_list` (lines 401-435) -/

/-- The sort key of line 419: `x[1].get('added', '')`.  The key is taken
as a character list so that the order is Python's code-point
lexicographic string comparison. -/
def addedKey (kv : String × Note) : List Char := (kv.2.added.getD "").toList

/-- Stable descending insertion: the entry is placed before the first
entry whose key is not greater, so an earlier entry stays before a later
entry with an equal key. -/
def insertDesc (a : String × Note) : NotesData → NotesData
  | [] => [a]
  | b :: rest => if addedKey b ≤ addedKey a then a :: b :: rest else b :: insertDesc a rest

/-- Line 419: `sorted(notes_data.items(), key=..., reverse=True)`.
Python's sort is stable and `reverse=True` keeps equal-key entries in
their original order; the result of a stable sort under a total preorder
is unique, so this stable insertion sort is a faithful model. -/
def python_sorted_desc : NotesData → NotesData
  | [] => []
  | x :: xs => insertDesc x (python_sorted_desc xs)

/-- Line 421: `args.number if hasattr(args, 'number') and args.number
else 5` — `args.number` always exists (argparse default 5), and the
truthiness test sends `0` to the default `5`. -/
def effectiveLimit (argNumber : Int) : Int :=
  if argNumber ≠ 0 then argNumber else 5

/-- Python `xs[:i]`, including the negative-index convention. -/
def pyTake (i : Int) (xs : NotesData) : NotesData :=
  if 0 ≤ i then xs.take i.toNat else xs.take ((xs.length : Int) + i).toNat

/-- The selection of `cmd_list` (lines 418-422) on a loaded collection:
sort by `added` descending (missing `added` sorts as `""`) and take the
first `limit` entries. -/
def cmd_list (notes : NotesData) (argNumber : Int) : NotesData :=
  pyTake (effectiveLimit argNumber) (python_sorted_desc notes)

/-! ### Claim-side definitions

Definitions that follow the words of the specification, to be compared
with the embedded code. -/

/-- The payload selection exactly as the specification words it, reading
"fenced block" strictly as an opening marker with a closing fence marker
after it: content between the first tagged pair when a tagged block
exists, else between the first generic pair, else the raw text. -/
def claimExtract (t : List Char) : List Char :=
  if occursIn fenceJson t && occursIn fence (afterFirst fenceJson t) then
    stripChars (takeUntil fence (afterFirst fenceJson t))
  else if occursIn fence t && occursIn fence (afterFirst fence t) then
    stripChars (takeUntil fence (afterFirst fence t))
  else t

/-- The payload selection the code actually performs, described by
direct scans instead of `str.split` chains: after the first occurrence
of the tagged marker, truncated at the next tagged marker, then at the
first generic fence, and trimmed; else between the first and second
generic fences (to the end when unclosed), trimmed; else the raw text. -/
def scanExtract (t : List Char) : List Char :=
  if occursIn fenceJson t then
    stripChars (takeUntil fence (takeUntil fenceJson (afterFirst fenceJson t)))
  else if occursIn fence t then
    stripChars (takeUntil fence (afterFirst fence t))
  else t

/-- One-pass character transform equal to the sanitization chain. -/
def sanChar (c : Char) : Char :=
  if Char.toLower c = ' ' ∨ Char.toLower c = '/' then '_' else Char.toLower c

/-! ### Sample data for witnesses and counterexamples -/

/-- A note with every key absent. -/
def emptyNote : Note :=
  ⟨none, none, none, none, none, none, none, none, none, none, none, none⟩

/-- A course config as `cmd_course` creates it for a language course. -/
def cfgSample : CourseConfig :=
  { course_name := "French"
    created := "2024-01-01T00:00:00"
    is_language := true
    current_level := some "Beginner"
    ai_prompt := "p"
    anki := { deck_name := "French", model_name := "French (Notes)", use_sub_decks := true }
    fields := { term := "Term", translation := some "Translation", example_ := "Example",
                example_translation := some "Example Explanation", notes := "Notes",
                pronunciation := some "Pronunciation" } }

/-- A valid global config selecting the course `french`. -/
def gcV : FileState GlobalConfig := .valid { current_course := some "french" }

/-- A parsed model reply for the phrase `bonjour`. -/
def aiBonjour : Note := { emptyNote with term := some "bonjour", translation := some "hello" }

/-- A parsed model reply whose term collides with a stored note. -/
def aiTermX : Note := { emptyNote with term := some "x" }

/-- A stored, already-synced note under key `x`. -/
def syncedNoteX : Note :=
  { emptyNote with term := some "x", added := some "2024-01-02", level := some "Beginner",
                   synced := some true }

/-- A stored, not-yet-synced note under key `y`. -/
def unsyncedY : Note :=
  { emptyNote with term := some "y", added := some "2024-01-03", level := some "Beginner",
                   synced := some false }

/-- A collection holding only the synced note `x`. -/
def notesSyncedX : NotesData := [("x", syncedNoteX)]

/-- A collection holding the synced `x` and the unsynced `y`. -/
def notesMixed : NotesData := [("x", syncedNoteX), ("y", unsyncedY)]

/-- The note `cmd_new` stores when the model reply returns term `x`. -/
def overwrittenX : Note := newNoteOf cfgSample aiTermX "T2" none none

/-! ### Lemmas about the string primitives -/

theorem isPre_iff (l₁ l₂ : List Char) : l₁.isPrefixOf l₂ = true ↔ l₁ <+: l₂ := by
  exact List.isPrefixOf_iff_prefix

theorem pySplitFuel_ne_nil (sep : List Char) :
    ∀ fuel s, pySplitFuel sep fuel s ≠ [] := by
  intro fuel
  induction fuel with
  | zero => intro s; cases s <;> simp [pySplitFuel]
  | succ f ih =>
    intro s
    cases s with
    | nil => simp [pySplitFuel]
    | cons c rest =>
      simp only [pySplitFuel]
      split
      · simp
      · cases h : pySplitFuel sep f rest with
        | nil => simp
        | cons seg segs => simp

theorem pySplitFuel_getD_zero (sep : List Char) (hsep : sep ≠ []) :
    ∀ fuel s, s.length ≤ fuel → (pySplitFuel sep fuel s).getD 0 [] = takeUntil sep s := by
  intro fuel
  induction fuel with
  | zero =>
    intro s hs
    have : s = [] := List.eq_nil_of_length_eq_zero (Nat.le_zero.mp hs)
    subst this
    simp [pySplitFuel, takeUntil]
  | succ f ih =>
    intro s hs
    cases s with
    | nil => simp [pySplitFuel, takeUntil]
    | cons c rest =>
      simp only [pySplitFuel, takeUntil]
      by_cases hp : sep.isPrefixOf (c :: rest)
      · rw [if_pos (by simp [hp, List.isEmpty_iff, hsep]), if_pos hp]
        simp
      · rw [if_neg (by simp [hp]), if_neg hp]
        cases h : pySplitFuel sep f rest with
        | nil => exact absurd h (pySplitFuel_ne_nil sep f rest)
        | cons seg segs =>
          have hlen : rest.length ≤ f := by
            simp only [List.length_cons] at hs
            omega
          have := ih rest hlen
          rw [h] at this
          simpa using this

theorem pySplitFuel_getD_one (sep : List Char) (hsep : sep ≠ []) :
    ∀ fuel s, s.length ≤ fuel → occursIn sep s = true →
      (pySplitFuel sep fuel s).getD 1 [] = takeUntil sep (afterFirst sep s) := by
  intro fuel
  induction fuel with
  | zero =>
    intro s hs ho
    have : s = [] := List.eq_nil_of_length_eq_zero (Nat.le_zero.mp hs)
    subst this
    simp [occursIn, List.isEmpty_iff, hsep] at ho
  | succ f ih =>
    intro s hs ho
    cases s with
    | nil => simp [occursIn, List.isEmpty_iff, hsep] at ho
    | cons c rest =>
      simp only [pySplitFuel, afterFirst]
      by_cases hp : sep.isPrefixOf (c :: rest)
      · rw [if_pos (by simp [hp, List.isEmpty_iff, hsep]), if_pos hp]
        have hslen : ((c :: rest).drop sep.length).length ≤ f := by
          have h1 : 1 ≤ sep.length := by
            cases sep with
            | nil => exact absurd rfl hsep
            | cons a t => simp
          simp only [List.length_cons] at hs
          simp only [List.length_drop, List.length_cons]
          omega
        simpa using pySplitFuel_getD_zero sep hsep f _ hslen
      · rw [if_neg (by simp [hp]), if_neg hp]
        have ho' : occursIn sep rest = true := by
          simp only [occursIn, Bool.or_eq_true] at ho
          rcases ho with h | h
          · exact absurd h hp
          · exact h
        have hlen : rest.length ≤ f := by
          simp only [List.length_cons] at hs
          omega
        cases h : pySplitFuel sep f rest with
        | nil => exact absurd h (pySplitFuel_ne_nil sep f rest)
        | cons seg segs =>
          have := ih rest hlen ho'
          rw [h] at this
          simpa using this

theorem pySplit_getD_zero (sep : List Char) (hsep : sep ≠ []) (s : List Char) :
    (pySplit sep s).getD 0 [] = takeUntil sep s :=
  pySplitFuel_getD_zero sep hsep s.length s le_rfl

theorem pySplit_getD_one (sep : List Char) (hsep : sep ≠ []) (s : List Char)
    (h : occursIn sep s = true) :
    (pySplit sep s).getD 1 [] = takeUntil sep (afterFirst sep s) :=
  pySplitFuel_getD_one sep hsep s.length s le_rfl h

theorem takeUntil_prefixOf (sep : List Char) : ∀ s, takeUntil sep s <+: s := by
  intro s
  induction s with
  | nil => simp [takeUntil]
  | cons c rest ih =>
    simp only [takeUntil]
    split
    · exact List.nil_prefix
    · exact List.cons_prefix_cons.mpr ⟨rfl, ih⟩

theorem takeUntil_takeUntil (sep : List Char) :
    ∀ s, takeUntil sep (takeUntil sep s) = takeUntil sep s := by
  intro s
  induction s with
  | nil => simp [takeUntil]
  | cons c rest ih =>
    simp only [takeUntil]
    by_cases hp : sep.isPrefixOf (c :: rest)
    · rw [if_pos hp]
      simp [takeUntil]
    · rw [if_neg hp]
      have hnp : ¬sep.isPrefixOf (c :: takeUntil sep rest) = true := by
        intro hpre
        have h1 : sep <+: c :: takeUntil sep rest := (isPre_iff _ _).mp hpre
        have h2 : c :: takeUntil sep rest <+: c :: rest :=
          List.cons_prefix_cons.mpr ⟨rfl, takeUntil_prefixOf sep rest⟩
        exact hp ((isPre_iff _ _).mpr (h1.trans h2))
      simp only [takeUntil]
      rw [if_neg hnp, ih]

/-! ### Lemmas about sanitization -/

theorem toNat_ofNat_valid (m : Nat) (h : Nat.isValidChar m) : (Char.ofNat m).toNat = m := by
  rw [Char.ofNat, dif_pos h]
  rfl

theorem toLower_toNat (c : Char) (h1 : 65 ≤ c.toNat) (h2 : c.toNat ≤ 90) :
    (Char.toLower c).toNat = c.toNat + 32 := by
  have hv : Nat.isValidChar (c.toNat + 32) := Or.inl (by omega)
  simp only [Char.toLower]
  rw [if_pos (And.intro h1 h2)]
  exact toNat_ofNat_valid _ hv

theorem toLower_idem (c : Char) : (Char.toLower c).toLower = c.toLower := by
  by_cases h : 65 ≤ c.toNat ∧ c.toNat ≤ 90
  · have hn := toLower_toNat c h.1 h.2
    simp only [Char.toLower] at *
    rw [if_pos h] at hn ⊢
    rw [if_neg (by omega)]
  · simp only [Char.toLower]
    rw [if_neg h, if_neg h]

theorem toLower_not_upper (c : Char) :
    ¬(65 ≤ (Char.toLower c).toNat ∧ (Char.toLower c).toNat ≤ 90) := by
  by_cases h : 65 ≤ c.toNat ∧ c.toNat ≤ 90
  · have hn := toLower_toNat c h.1 h.2
    omega
  · simp only [Char.toLower]
    rw [if_neg h]
    exact h

theorem toLower_ne_space {c : Char} (h : Char.toLower c = ' ') : c = ' ' := by
  by_cases hu : 65 ≤ c.toNat ∧ c.toNat ≤ 90
  · have hn := toLower_toNat c hu.1 hu.2
    rw [h] at hn
    have : (' ' : Char).toNat = 32 := rfl
    omega
  · simp only [Char.toLower] at h
    rwa [if_neg hu] at h

theorem toLower_ne_slash {c : Char} (h : Char.toLower c = '/') : c = '/' := by
  by_cases hu : 65 ≤ c.toNat ∧ c.toNat ≤ 90
  · have hn := toLower_toNat c hu.1 hu.2
    rw [h] at hn
    have : ('/' : Char).toNat = 47 := rfl
    omega
  · simp only [Char.toLower] at h
    rwa [if_neg hu] at h

theorem sanitize_eq_map (s : List Char) : sanitize_filename s = s.map sanChar := by
  simp only [sanitize_filename, List.map_map]
  refine List.map_congr_left ?_
  intro c _
  simp only [Function.comp_apply, sanChar]
  by_cases h1 : Char.toLower c = ' '
  · simp [h1]
  · by_cases h2 : Char.toLower c = '/'
    · simp [h1, h2]
    · simp [h1, h2]

theorem sanChar_idem (c : Char) : sanChar (sanChar c) = sanChar c := by
  by_cases h : Char.toLower c = ' ' ∨ Char.toLower c = '/'
  · simp only [sanChar]
    rw [if_pos h]
    decide
  · simp only [sanChar]
    rw [if_neg h, if_neg (by rw [toLower_idem]; exact h), toLower_idem]

/-! ### Lemmas about the dict operations and the sync batch -/

theorem assocLookup_setKey_self (m : NotesData) (k : String) (v : Note) :
    assocLookup (setKey m k v) k = some v := by
  induction m with
  | nil => simp [setKey, assocLookup]
  | cons kv rest ih =>
    obtain ⟨k', v'⟩ := kv
    simp only [setKey]
    by_cases h : k' = k
    · rw [if_pos h]
      simp [assocLookup]
    · rw [if_neg h]
      simp only [assocLookup]
      rw [if_neg h]
      exact ih

theorem assocLookup_setKey_other (m : NotesData) (k : String) (v : Note) (k' : String)
    (h : k' ≠ k) : assocLookup (setKey m k v) k' = assocLookup m k' := by
  induction m with
  | nil =>
    simp only [setKey, assocLookup]
    rw [if_neg (fun he => h he.symm)]
  | cons kv rest ih =>
    obtain ⟨k0, v0⟩ := kv
    simp only [setKey]
    by_cases h0 : k0 = k
    · rw [if_pos h0]
      simp only [assocLookup]
      rw [if_neg (fun he => h he.symm), if_neg (by rw [h0]; exact fun he => h he.symm)]
    · rw [if_neg h0]
      simp only [assocLookup]
      by_cases h1 : k0 = k'
      · rw [if_pos h1, if_pos h1]
      · rw [if_neg h1, if_neg h1]
        exact ih

theorem assocLookup_markSyncedIf (ok : String → Bool) (notes : NotesData) (k : String)
    (v : Note) (h : assocLookup notes k = some v) :
    assocLookup (markSyncedIf ok notes) k
      = some (if !getSynced v && ok k then { v with synced := some true } else v) := by
  induction notes with
  | nil => simp [assocLookup] at h
  | cons kv rest ih =>
    obtain ⟨k0, v0⟩ := kv
    simp only [assocLookup] at h
    simp only [markSyncedIf, List.map_cons]
    by_cases h0 : k0 = k
    · rw [if_pos h0] at h
      injection h with h
      subst h
      subst h0
      by_cases hc : (!getSynced v0 && ok k0) = true
      · rw [if_pos hc]
        simp [assocLookup, hc]
      · rw [if_neg hc]
        simp [assocLookup, hc]
    · rw [if_neg h0] at h
      have hrec := ih h
      simp only [markSyncedIf] at hrec
      by_cases hc : (!getSynced v0 && ok k0) = true
      · rw [if_pos hc]
        simp only [assocLookup]
        rw [if_neg h0]
        exact hrec
      · rw [if_neg hc]
        simp only [assocLookup]
        rw [if_neg h0]
        exact hrec

theorem getSynced_markSynced_all (notes : NotesData) :
    ∀ kv ∈ markSyncedIf (fun _ => true) notes, getSynced kv.2 = true := by
  intro kv hkv
  simp only [markSyncedIf, List.mem_map] at hkv
  obtain ⟨a, _, ha⟩ := hkv
  by_cases hc : !getSynced a.2 && true
  · rw [if_pos hc] at ha
    rw [← ha]
    simp [getSynced]
  · rw [if_neg hc] at ha
    rw [← ha]
    simp only [Bool.and_true, Bool.not_eq_true'] at hc
    simpa using hc

theorem unsynced_markSynced_all_nil (notes : NotesData) :
    unsyncedOf (markSyncedIf (fun _ => true) notes) = [] := by
  simp only [unsyncedOf]
  rw [List.filter_eq_nil_iff]
  intro kv hkv
  have := getSynced_markSynced_all notes kv hkv
  simp [this]

theorem syncLoop_reports (cfg : CourseConfig) (tag : String) (ok : String → Bool) :
    ∀ u : List (String × Note), (syncLoop cfg tag ok u).2 = u.map fun kv => (kv.1, ok kv.1) := by
  intro u
  induction u with
  | nil => simp [syncLoop]
  | cons kv rest ih =>
    obtain ⟨term, note⟩ := kv
    simp [syncLoop, ih]

/-! ### Lemmas about the list sort -/

theorem insertDesc_perm (a : String × Note) :
    ∀ l, (insertDesc a l).Perm (a :: l) := by
  intro l
  induction l with
  | nil => exact List.Perm.refl _
  | cons b rest ih =>
    simp only [insertDesc]
    split
    · exact List.Perm.refl _
    · exact (ih.cons b).trans (List.Perm.swap a b rest)

theorem python_sorted_desc_perm : ∀ l : NotesData, (python_sorted_desc l).Perm l := by
  intro l
  induction l with
  | nil => exact List.Perm.refl _
  | cons x xs ih =>
    exact (insertDesc_perm x (python_sorted_desc xs)).trans (ih.cons x)

theorem pairwise_insertDesc (a : String × Note) :
    ∀ l, l.Pairwise (fun x y => addedKey y ≤ addedKey x) →
      (insertDesc a l).Pairwise (fun x y => addedKey y ≤ addedKey x) := by
  intro l
  induction l with
  | nil => intro _; simp [insertDesc]
  | cons b rest ih =>
    intro h
    rw [List.pairwise_cons] at h
    simp only [insertDesc]
    by_cases hc : addedKey b ≤ addedKey a
    · rw [if_pos hc]
      rw [List.pairwise_cons]
      refine ⟨?_, List.pairwise_cons.mpr h⟩
      intro y hy
      rcases List.mem_cons.mp hy with he | hy'
      · rw [he]; exact hc
      · exact le_trans (h.1 y hy') hc
    · rw [if_neg hc]
      have hab : addedKey a ≤ addedKey b := le_of_not_le hc
      rw [List.pairwise_cons]
      refine ⟨?_, ih h.2⟩
      intro y hy
      have := (insertDesc_perm a rest).mem_iff.mp hy
      rcases List.mem_cons.mp this with he | hy'
      · rw [he]; exact hab
      · exact h.1 y hy'

theorem python_sorted_desc_pairwise :
    ∀ l : NotesData,
      (python_sorted_desc l).Pairwise (fun x y => addedKey y ≤ addedKey x) := by
  intro l
  induction l with
  | nil => simp [python_sorted_desc]
  | cons x xs ih => exact pairwise_insertDesc x (python_sorted_desc xs) ih

/-! ### Inversion lemmas for the command outcomes -/

theorem syncSaved_inversion (gcF : FileState GlobalConfig) (ccfgF : FileState CourseConfig)
    (notes : NotesData) (avail : Bool) (ok : String → Bool) (saved : NotesData)
    (h : syncSaved (cmd_sync gcF ccfgF (.valid notes) avail ok) = some saved) :
    saved = markSyncedIf ok notes
    ∧ truthyStr (load_global_config gcF).current_course = true := by
  by_cases h1 : truthyStr (load_global_config gcF).current_course = true
  · by_cases h2 : (unsyncedOf notes).isEmpty = true
    · simp [cmd_sync, h1, h2, syncSaved] at h
    · cases avail with
      | false => simp [cmd_sync, h1, h2, syncSaved] at h
      | true =>
        cases ccfgF with
        | missing => simp [cmd_sync, h1, h2, load_course_config, syncSaved] at h
        | malformed => simp [cmd_sync, h1, h2, load_course_config, syncSaved] at h
        | valid cfg =>
          simp only [cmd_sync, h1, h2, load_course_config, syncSaved] at h
          simp at h
          exact ⟨h.symm, h1⟩
  · simp [cmd_sync, h1, syncSaved] at h

theorem cmd_new_saved_inversion (gcF : FileState GlobalConfig)
    (ccfgF : FileState CourseConfig) (notesF : FileState NotesData) (apiKey : Bool)
    (phrase : String) (ctx gram : Option String) (ai : Except Unit Note) (now : String)
    (notes' : NotesData) (key : String) (nt : Note)
    (h : cmd_new gcF ccfgF notesF apiKey phrase ctx gram ai now = .saved notes' key nt) :
    ∃ cfg a, ccfgF = .valid cfg ∧ ai = .ok a
      ∧ notes' = setKey (loadNotesTolerant notesF) (a.term.getD phrase)
          (newNoteOf cfg a now ctx gram)
      ∧ key = a.term.getD phrase ∧ nt = newNoteOf cfg a now ctx gram := by
  by_cases h1 : truthyStr (load_global_config gcF).current_course = true
  · cases ccfgF with
    | missing => simp [cmd_new, h1, load_course_config] at h
    | malformed => simp [cmd_new, h1, load_course_config] at h
    | valid cfg =>
      cases apiKey with
      | false => simp [cmd_new, h1, load_course_config] at h
      | true =>
        cases ai with
        | error e => simp [cmd_new, h1, load_course_config] at h
        | ok a =>
          simp only [cmd_new, h1, load_course_config] at h
          simp at h
          exact ⟨cfg, a, rfl, rfl, h.1.symm, h.2.1.symm, h.2.2.symm⟩
  · simp [cmd_new, h1] at h

/-! ### The claims -/

/-- C9: course-name sanitization is idempotent, lower-cases the name (no
ASCII uppercase letter remains in the output), preserves length, and
maps every space and every slash to an underscore. -/
theorem sanitize_filename_spec : ∀ s : List Char,
    sanitize_filename (sanitize_filename s) = sanitize_filename s
    ∧ (∀ c ∈ sanitize_filename s, ¬(65 ≤ c.toNat ∧ c.toNat ≤ 90))
    ∧ (sanitize_filename s).length = s.length
    ∧ ∀ i : Nat, (s[i]? = some ' ' ∨ s[i]? = some '/') →
        (sanitize_filename s)[i]? = some '_' := by
  intro s
  refine ⟨?_, ?_, ?_, ?_⟩
  · rw [sanitize_eq_map, sanitize_eq_map, List.map_map]
    refine List.map_congr_left ?_
    intro a _
    simp only [Function.comp_apply]
    exact sanChar_idem a
  · intro c hc
    rw [sanitize_eq_map] at hc
    simp only [List.mem_map] at hc
    obtain ⟨a, _, ha⟩ := hc
    rw [← ha]
    by_cases h : Char.toLower a = ' ' ∨ Char.toLower a = '/'
    · simp only [sanChar]
      rw [if_pos h]
      decide
    · simp only [sanChar]
      rw [if_neg h]
      exact toLower_not_upper a
  · rw [sanitize_eq_map]
    exact List.length_map s sanChar
  · intro i hi
    rw [sanitize_eq_map, List.getElem?_map]
    rcases hi with h | h <;> rw [h] <;> decide

/-- C9 witness: the theorem applied to the concrete name `A b/C`. -/
theorem sanitize_filename_spec_witness :
    sanitize_filename (sanitize_filename "A b/C".toList) = sanitize_filename "A b/C".toList
    ∧ (sanitize_filename "A b/C".toList)[1]? = some '_' :=
  ⟨(sanitize_filename_spec "A b/C".toList).1,
   (sanitize_filename_spec "A b/C".toList).2.2.2 1 (Or.inl (by decide))⟩

/-- C5 (amended): the payload extraction follows the fallback order
tagged-marker, then generic marker, then raw text, where an unclosed
fence extends to the end of the text and the chosen content is trimmed
(formalised by `scanExtract`); and a failed enrichment call — which
includes a JSON parse failure of the chosen substring — aborts `cmd_new`
with an error and nothing is saved. -/
theorem extract_payload_fallback_order :
    (∀ t : List Char, extract_payload t = scanExtract t)
    ∧ ∀ gcF cfg notesF phrase ctx gram now,
        truthyStr (load_global_config gcF).current_course = true →
        cmd_new gcF (.valid cfg) notesF true phrase ctx gram (.error ()) now
          = .errEnrichment := by
  constructor
  · intro t
    simp only [extract_payload, scanExtract]
    by_cases h1 : occursIn fenceJson t = true
    · rw [if_pos h1, if_pos h1,
        pySplit_getD_one fenceJson (by decide) t h1, pySplit_getD_zero fence (by decide)]
    · by_cases h2 : occursIn fence t = true
      · rw [if_neg h1, if_neg h1, if_pos h2, if_pos h2,
          pySplit_getD_one fence (by decide) t h2, pySplit_getD_zero fence (by decide),
          takeUntil_takeUntil]
      · rw [if_neg h1, if_neg h1, if_neg h2, if_neg h2]
  · intro gcF cfg notesF phrase ctx gram now hc
    simp [cmd_new, load_course_config, hc]

/-- C5 witness: the equivalence at a concrete reply, and the fatal
enrichment failure at a concrete command invocation. -/
theorem extract_payload_fallback_order_witness :
    extract_payload "abc".toList = scanExtract "abc".toList
    ∧ cmd_new gcV (.valid cfgSample) (.valid []) true "p" none none (.error ()) "T"
        = .errEnrichment :=
  ⟨extract_payload_fallback_order.1 "abc".toList,
   extract_payload_fallback_order.2 gcV cfgSample (.valid []) "p" none none "T" (by decide)⟩

/-- C5 counterexample: on a reply whose tagged fence is never closed the
code still slices after the opening marker (and would parse that
substring), while the claim as stated — which needs a fence pair — keeps
the raw text. -/
theorem extract_payload_unclosed_fence :
    extract_payload "```json hello".toList ≠ claimExtract "```json hello".toList
    ∧ extract_payload "```json hello".toList = "hello".toList
    ∧ claimExtract "```json hello".toList = "```json hello".toList := by
  decide

/-- C3 (amended): a missing or malformed global config loads as the
default; a missing or malformed notes file loads as the empty mapping in
the note-creation command; a missing course config loads as null while a
malformed one is a fatal parse error; but in the sync command a
malformed notes file is itself a fatal, uncaught parse error. -/
theorem persisted_load_tolerance :
    load_global_config .missing = { current_course := none }
    ∧ load_global_config .malformed = { current_course := none }
    ∧ loadNotesTolerant .missing = ([] : NotesData)
    ∧ loadNotesTolerant .malformed = ([] : NotesData)
    ∧ load_course_config .missing = .ok none
    ∧ load_course_config .malformed = .error ()
    ∧ ∀ gcF ccfgF avail ok,
        truthyStr (load_global_config gcF).current_course = true →
        cmd_sync gcF ccfgF .malformed avail ok = .fatalNotesParse := by
  refine ⟨rfl, rfl, rfl, rfl, rfl, rfl, ?_⟩
  intro gcF ccfgF avail ok hc
  simp [cmd_sync, hc]

/-- C3 witness: the sync command on a malformed notes file, with a
course selected, dies with the parse error. -/
theorem persisted_load_tolerance_witness :
    cmd_sync gcV .missing .malformed false (fun _ => true) = .fatalNotesParse :=
  persisted_load_tolerance.2.2.2.2.2.2 gcV .missing false (fun _ => true) (by decide)

/-- C3 counterexample: loading a malformed notes collection is not
tolerated in `cmd_sync` — the run is a fatal parse error, not the
behaviour of the empty mapping (which would report all-synced). -/
theorem sync_malformed_notes_fatal :
    cmd_sync gcV (.valid cfgSample) .malformed true (fun _ => true) = .fatalNotesParse
    ∧ cmd_sync gcV (.valid cfgSample) (.valid []) true (fun _ => true) = .allSynced
    ∧ SyncOutcome.fatalNotesParse ≠ SyncOutcome.allSynced := by
  refine ⟨by decide, by decide, by decide⟩

/-- C8: with no course selected, the level command reports the
user-facing error and writes nothing; with a course selected and its
config present, it overwrites `current_level` and changes no other
field. -/
theorem level_requires_course_and_overwrites_level :
    (∀ gcF ccfgF lvl, truthyStr (load_global_config gcF).current_course = false →
        cmd_level gcF ccfgF lvl = .errNoCourse
        ∧ levelWrite (cmd_level gcF ccfgF lvl) = none)
    ∧ ∀ gcF cfg lvl, truthyStr (load_global_config gcF).current_course = true →
        cmd_level gcF (.valid cfg) lvl = .saved { cfg with current_level := some lvl }
        ∧ ({ cfg with current_level := some lvl } : CourseConfig).current_level = some lvl
        ∧ ({ cfg with current_level := some lvl } : CourseConfig).course_name = cfg.course_name
        ∧ ({ cfg with current_level := some lvl } : CourseConfig).created = cfg.created
        ∧ ({ cfg with current_level := some lvl } : CourseConfig).is_language = cfg.is_language
        ∧ ({ cfg with current_level := some lvl } : CourseConfig).ai_prompt = cfg.ai_prompt
        ∧ ({ cfg with current_level := some lvl } : CourseConfig).anki = cfg.anki
        ∧ ({ cfg with current_level := some lvl } : CourseConfig).fields = cfg.fields := by
  constructor
  · intro gcF ccfgF lvl hc
    constructor
    · simp [cmd_level, hc]
    · simp [cmd_level, levelWrite, hc]
  · intro gcF cfg lvl hc
    refine ⟨?_, rfl, rfl, rfl, rfl, rfl, rfl, rfl⟩
    simp [cmd_level, load_course_config, hc]

/-- C8 witness: both branches at concrete inputs. -/
theorem level_requires_course_and_overwrites_level_witness :
    cmd_level (.valid { current_course := none }) .missing "B2" = .errNoCourse
    ∧ cmd_level gcV (.valid cfgSample) "B2"
        = .saved { cfgSample with current_level := some "B2" } :=
  ⟨(level_requires_course_and_overwrites_level.1
      (.valid { current_course := none }) .missing "B2" (by decide)).1,
   (level_requires_course_and_overwrites_level.2 gcV cfgSample "B2" (by decide)).1⟩

/-- C10: when the selected course's config file does not exist, the
level and note-creation commands do not report the missing-selection
error; they end in the uncaught-exception outcome of dereferencing the
null config. -/
theorem missing_course_config_uncaught :
    ∀ (name lvl : String) notesF apiKey phrase ctx gram ai now, name ≠ "" →
      cmd_level (.valid { current_course := some name }) .missing lvl = .fatalNoCourseConfig
      ∧ cmd_level (.valid { current_course := some name }) .missing lvl ≠ .errNoCourse
      ∧ cmd_new (.valid { current_course := some name }) .missing notesF apiKey phrase
          ctx gram ai now = .fatalNoCourseConfig
      ∧ cmd_new (.valid { current_course := some name }) .missing notesF apiKey phrase
          ctx gram ai now ≠ .errNoCourse := by
  intro name lvl notesF apiKey phrase ctx gram ai now hname
  have ht : truthyStr (some name) = true := by
    simp only [truthyStr, Bool.not_eq_true']
    rw [← Bool.not_eq_true]
    simp [String.isEmpty_iff, hname]
  have h1 : cmd_level (.valid { current_course := some name }) .missing lvl
      = .fatalNoCourseConfig := by
    simp [cmd_level, load_global_config, load_course_config, ht]
  have h2 : cmd_new (.valid { current_course := some name }) .missing notesF apiKey phrase
      ctx gram ai now = .fatalNoCourseConfig := by
    simp [cmd_new, load_global_config, load_course_config, ht]
  refine ⟨h1, ?_, h2, ?_⟩
  · rw [h1]; intro hcon; exact LevelOutcome.noConfusion hcon
  · rw [h2]; intro hcon; exact NewOutcome.noConfusion hcon

/-- C10 witness: the theorem at the concrete course name `french`. -/
theorem missing_course_config_uncaught_witness :
    cmd_level (.valid { current_course := some "french" }) .missing "B1"
      = .fatalNoCourseConfig
    ∧ cmd_new (.valid { current_course := some "french" }) .missing (.valid []) true "hi"
        none none (.ok emptyNote) "T" = .fatalNoCourseConfig :=
  ⟨(missing_course_config_uncaught "french" "B1" (.valid []) true "hi" none none
      (.ok emptyNote) "T" (by decide)).1,
   (missing_course_config_uncaught "french" "B1" (.valid []) true "hi" none none
      (.ok emptyNote) "T" (by decide)).2.2.1⟩

/-- C7 (amended): for every nonnegative limit, listing orders the
entries by `added` descending — an entry missing `added` sorts as the
empty string, hence last — and returns exactly the first `limit` entries
of that order when the limit is positive; a limit of `0` is falsy in the
code and falls back to the default `5`. -/
theorem list_recent_sorted_take : ∀ (notes : NotesData) (n : Int), 0 ≤ n →
    (0 < n → cmd_list notes n = (python_sorted_desc notes).take n.toNat)
    ∧ cmd_list notes 0 = (python_sorted_desc notes).take 5
    ∧ (python_sorted_desc notes).Pairwise (fun x y => addedKey y ≤ addedKey x)
    ∧ (python_sorted_desc notes).Perm notes
    ∧ (cmd_list notes n).length = min (effectiveLimit n).toNat notes.length := by
  intro notes n hn
  have hperm := python_sorted_desc_perm notes
  refine ⟨?_, ?_, python_sorted_desc_pairwise notes, hperm, ?_⟩
  · intro hpos
    have hne : n ≠ 0 := by omega
    simp [cmd_list, effectiveLimit, pyTake, hne, hn]
  · simp [cmd_list, effectiveLimit, pyTake]
  · have he : 0 ≤ effectiveLimit n := by
      simp only [effectiveLimit]
      split <;> omega
    simp [cmd_list, pyTake, he, List.length_take, hperm.length_eq]

/-- C7 witness: the positive-limit selection at a concrete collection. -/
theorem list_recent_sorted_take_witness :
    cmd_list notesMixed 1 = (python_sorted_desc notesMixed).take (Int.toNat 1) :=
  (list_recent_sorted_take notesMixed 1 (by decide)).1 (by decide)

/-- C7 counterexample: at limit `0` the code does not return the first
`0` entries — the falsy argument falls back to the default `5` and the
whole two-entry collection comes back. -/
theorem list_limit_zero_default :
    cmd_list notesMixed 0 ≠ (python_sorted_desc notesMixed).take (Int.toNat 0)
    ∧ cmd_list notesMixed 0 = python_sorted_desc notesMixed := by
  refine ⟨by decide, by decide⟩

/-- C2: during a sync batch every unsynced note is attempted in order
and gets a `(term, success)` report — a per-note failure is reported and
the batch continues; afterwards the file is rewritten with the flag set
on exactly the unsynced notes that succeeded (a failed note's flag stays
false, an already-synced note is untouched); and the summary is
succeeded over total. -/
theorem sync_batch_isolated_failures :
    ∀ gcF cfg notes (ok : String → Bool),
      truthyStr (load_global_config gcF).current_course = true →
      unsyncedOf notes ≠ [] →
      reportsOf (cmd_sync gcF (.valid cfg) (.valid notes) true ok)
          = (unsyncedOf notes).map (fun kv => (kv.1, ok kv.1))
      ∧ summaryOf (cmd_sync gcF (.valid cfg) (.valid notes) true ok)
          = some (succCount ok (unsyncedOf notes), (unsyncedOf notes).length)
      ∧ syncSaved (cmd_sync gcF (.valid cfg) (.valid notes) true ok)
          = some (markSyncedIf ok notes)
      ∧ ∀ k v, assocLookup notes k = some v →
          assocLookup (markSyncedIf ok notes) k
            = some (if !getSynced v && ok k then { v with synced := some true } else v) := by
  intro gcF cfg notes ok hc hu
  have hie : (unsyncedOf notes).isEmpty = false := by
    rw [← Bool.not_eq_true]
    simp [List.isEmpty_iff, hu]
  refine ⟨?_, ?_, ?_, fun k v hv => assocLookup_markSyncedIf ok notes k v hv⟩
  · simp [cmd_sync, hc, hie, load_course_config, reportsOf, syncLoop_reports]
  · simp [cmd_sync, hc, hie, load_course_config, summaryOf]
  · simp [cmd_sync, hc, hie, load_course_config, syncSaved]

/-- C2 witness: a batch whose only unsynced note fails — the failure is
reported in the succeeded-over-total summary and the run still
completes. -/
theorem sync_batch_isolated_failures_witness :
    summaryOf (cmd_sync gcV (.valid cfgSample) (.valid notesMixed) true (fun _ => false))
      = some (succCount (fun _ => false) (unsyncedOf notesMixed),
          (unsyncedOf notesMixed).length) :=
  (sync_batch_isolated_failures gcV cfgSample notesMixed (fun _ => false)
    (by decide) (by decide)).2.1

/-- C6 (amended): a successful creation stores — under the model term,
or the phrase when the term is absent — a note carrying the timestamp,
the course level and a false synced flag, plus the user context and
grammar exactly when they were provided non-empty (an empty-string
argument is falsy in the code and dropped); the note replaces any prior
note under the same key without merging, every other key is untouched,
and the whole collection is saved. -/
theorem new_note_stored_shape :
    ∀ gcF cfg notesF phrase ctx gram ai now,
      truthyStr (load_global_config gcF).current_course = true →
      cmd_new gcF (.valid cfg) notesF true phrase ctx gram (.ok ai) now
        = .saved (setKey (loadNotesTolerant notesF) (ai.term.getD phrase)
            (newNoteOf cfg ai now ctx gram)) (ai.term.getD phrase)
            (newNoteOf cfg ai now ctx gram)
      ∧ (newNoteOf cfg ai now ctx gram).added = some now
      ∧ (newNoteOf cfg ai now ctx gram).level = cfg.current_level
      ∧ (newNoteOf cfg ai now ctx gram).synced = some false
      ∧ (truthyStr ctx = true → (newNoteOf cfg ai now ctx gram).context = ctx)
      ∧ (truthyStr gram = true → (newNoteOf cfg ai now ctx gram).grammar = gram)
      ∧ (truthyStr ctx = false → (newNoteOf cfg ai now ctx gram).context = ai.context)
      ∧ (truthyStr gram = false → (newNoteOf cfg ai now ctx gram).grammar = ai.grammar)
      ∧ assocLookup (setKey (loadNotesTolerant notesF) (ai.term.getD phrase)
            (newNoteOf cfg ai now ctx gram)) (ai.term.getD phrase)
          = some (newNoteOf cfg ai now ctx gram)
      ∧ ∀ k, k ≠ ai.term.getD phrase →
          assocLookup (setKey (loadNotesTolerant notesF) (ai.term.getD phrase)
              (newNoteOf cfg ai now ctx gram)) k
            = assocLookup (loadNotesTolerant notesF) k := by
  intro gcF cfg notesF phrase ctx gram ai now hc
  refine ⟨?_, rfl, rfl, rfl, ?_, ?_, ?_, ?_,
    assocLookup_setKey_self (loadNotesTolerant notesF) (ai.term.getD phrase)
      (newNoteOf cfg ai now ctx gram),
    fun k hk => assocLookup_setKey_other (loadNotesTolerant notesF) (ai.term.getD phrase)
      (newNoteOf cfg ai now ctx gram) k hk⟩
  · simp [cmd_new, load_course_config, hc]
  · intro h; simp [newNoteOf, h]
  · intro h; simp [newNoteOf, h]
  · intro h; simp [newNoteOf, h]
  · intro h; simp [newNoteOf, h]

/-- C6 witness: the stored shape at a concrete creation with a non-empty
context argument. -/
theorem new_note_stored_shape_witness :
    cmd_new gcV (.valid cfgSample) (.valid []) true "bonjour" (some "greeting") none
        (.ok aiBonjour) "T"
      = .saved (setKey [] "bonjour" (newNoteOf cfgSample aiBonjour "T" (some "greeting") none))
          "bonjour" (newNoteOf cfgSample aiBonjour "T" (some "greeting") none)
    ∧ (newNoteOf cfgSample aiBonjour "T" (some "greeting") none).context = some "greeting" :=
  ⟨(new_note_stored_shape gcV cfgSample (.valid []) "bonjour" (some "greeting") none
      aiBonjour "T" (by decide)).1,
   (new_note_stored_shape gcV cfgSample (.valid []) "bonjour" (some "greeting") none
      aiBonjour "T" (by decide)).2.2.2.2.1 (by decide)⟩

/-- C6 counterexample: a context argument that is provided but empty is
falsy in the code and is not stored — against "carries the
user-supplied context exactly when it was provided". -/
theorem new_empty_context_dropped :
    cmd_new gcV (.valid cfgSample) (.valid []) true "bonjour" (some "") none
        (.ok aiBonjour) "T"
      = .saved [("bonjour", newNoteOf cfgSample aiBonjour "T" (some "") none)] "bonjour"
          (newNoteOf cfgSample aiBonjour "T" (some "") none)
    ∧ (newNoteOf cfgSample aiBonjour "T" (some "") none).context = none
    ∧ some "" ≠ (none : Option String) := by
  refine ⟨by decide, by decide, by decide⟩

/-- C1 (amended): sync writes an already-synced entry back unchanged and
only ever changes a flag from false to true; note creation stores a
fresh note with a false flag under its own key and leaves every other
key untouched — so the one way a true flag returns to false is a new
note overwriting an existing synced note under the same key. -/
theorem synced_flag_reset_only_by_new_overwrite :
    (∀ gcF ccfgF notes avail ok saved,
        syncSaved (cmd_sync gcF ccfgF (.valid notes) avail ok) = some saved →
        ∀ k v, assocLookup notes k = some v →
          (getSynced v = true → assocLookup saved k = some v)
          ∧ (assocLookup saved k = some v
             ∨ assocLookup saved k = some { v with synced := some true }))
    ∧ ∀ gcF ccfgF notesF apiKey phrase ctx gram ai now notes' key nt,
        cmd_new gcF ccfgF notesF apiKey phrase ctx gram ai now = .saved notes' key nt →
        nt.synced = some false
        ∧ ∀ k, k ≠ key →
            assocLookup notes' k = assocLookup (loadNotesTolerant notesF) k := by
  constructor
  · intro gcF ccfgF notes avail ok saved h k v hv
    obtain ⟨hs, -⟩ := syncSaved_inversion gcF ccfgF notes avail ok saved h
    subst hs
    have hm := assocLookup_markSyncedIf ok notes k v hv
    constructor
    · intro hsync
      rw [hm]
      simp [hsync]
    · rw [hm]
      by_cases hcond : (!getSynced v && ok k) = true
      · right
        rw [if_pos hcond]
      · left
        rw [if_neg hcond]
  · intro gcF ccfgF notesF apiKey phrase ctx gram ai now notes' key nt h
    obtain ⟨cfg, a, -, -, hn, hk, hnt⟩ :=
      cmd_new_saved_inversion gcF ccfgF notesF apiKey phrase ctx gram ai now notes' key nt h
    subst hn
    subst hk
    subst hnt
    exact ⟨rfl, fun k hk2 =>
      assocLookup_setKey_other (loadNotesTolerant notesF) (a.term.getD phrase)
        (newNoteOf cfg a now ctx gram) k hk2⟩

/-- C1 witness: a sync pass over a mixed collection writes the synced
entry back unchanged, and a concrete created note carries a false flag. -/
theorem synced_flag_reset_only_by_new_overwrite_witness :
    assocLookup (markSyncedIf (fun _ => true) notesMixed) "x" = some syncedNoteX
    ∧ (newNoteOf cfgSample aiBonjour "T4" none none).synced = some false :=
  ⟨((synced_flag_reset_only_by_new_overwrite.1 gcV (.valid cfgSample) notesMixed true
      (fun _ => true) (markSyncedIf (fun _ => true) notesMixed) (by decide)) "x" syncedNoteX
      (by decide)).1 (by decide),
   (synced_flag_reset_only_by_new_overwrite.2 gcV (.valid cfgSample) (.valid []) true
      "bonjour" none none (.ok aiBonjour) "T4"
      (setKey [] "bonjour" (newNoteOf cfgSample aiBonjour "T4" none none)) "bonjour"
      (newNoteOf cfgSample aiBonjour "T4" none none) (by decide)).1⟩

/-- C1 counterexample: `cmd_new` whose model reply term collides with
the stored synced note `x` replaces it with a fresh note whose flag is
false — the flag at key `x` goes from true back to false. -/
theorem new_overwrite_resets_synced :
    getSynced syncedNoteX = true
    ∧ assocLookup notesSyncedX "x" = some syncedNoteX
    ∧ cmd_new gcV (.valid cfgSample) (.valid notesSyncedX) true "x" none none
        (.ok aiTermX) "T2" = .saved [("x", overwrittenX)] "x" overwrittenX
    ∧ getSynced overwrittenX = false := by
  refine ⟨by decide, by decide, by decide, by decide⟩

/-- C4 (amended): after a sync run in which every push succeeded has
written the collection back, every entry is synced, so an immediate
second sync — with any oracle, even without the AnkiConnect module —
reports all-synced and performs zero external calls. -/
theorem sync_twice_second_run_silent :
    ∀ gcF ccfgF notes avail saved,
      syncSaved (cmd_sync gcF ccfgF (.valid notes) avail (fun _ => true)) = some saved →
      ∀ ccfgF2 avail2 ok2,
        cmd_sync gcF ccfgF2 (.valid saved) avail2 ok2 = .allSynced
        ∧ eventsOf (cmd_sync gcF ccfgF2 (.valid saved) avail2 ok2) = [] := by
  intro gcF ccfgF notes avail saved h
  obtain ⟨hs, h1⟩ := syncSaved_inversion gcF ccfgF notes avail (fun _ => true) saved h
  subst hs
  intro ccfgF2 avail2 ok2
  have hall : (unsyncedOf (markSyncedIf (fun _ => true) notes)).isEmpty = true := by
    simp [List.isEmpty_iff, unsynced_markSynced_all_nil notes]
  have heq : cmd_sync gcF ccfgF2 (.valid (markSyncedIf (fun _ => true) notes)) avail2 ok2
      = .allSynced := by
    simp [cmd_sync, h1, hall]
  exact ⟨heq, by rw [heq]; rfl⟩

/-- C4 witness: the second run at a concrete course state, after a fully
successful first run, is silent. -/
theorem sync_twice_second_run_silent_witness :
    cmd_sync gcV .missing (.valid (markSyncedIf (fun _ => true) notesMixed)) false
        (fun _ => false) = .allSynced :=
  (sync_twice_second_run_silent gcV (.valid cfgSample) notesMixed true
    (markSyncedIf (fun _ => true) notesMixed) (by decide) .missing false
    (fun _ => false)).1

/-- C4 counterexample: when the only unsynced note fails to push, the
collection is written back unchanged, so an immediate second run repeats
the same non-empty sequence of external calls instead of performing
zero calls. -/
theorem sync_twice_after_failure_repushes :
    syncSaved (cmd_sync gcV (.valid cfgSample) (.valid [("y", unsyncedY)]) true
        (fun _ => false)) = some [("y", unsyncedY)]
    ∧ eventsOf (cmd_sync gcV (.valid cfgSample) (.valid [("y", unsyncedY)]) true
        (fun _ => false)) ≠ [] := by
  refine ⟨by decide, by decide⟩

end AnkiNotes
